import Mathlib

/-!
Verification development for the Al-Mg PLC/DSA diffusion-analysis engine.

The Python sources are shallowly embedded over exact arithmetic: every
quantity the scripts branch on is kept in the rationals, so the embedded
pipeline is executable; quantities the scripts only store (square roots,
exponentials, logarithms of data) live in the reals.  Floating-point
rounding is not modelled: each numpy/scipy routine is embedded as its exact
mathematical counterpart (least squares in closed form, exact division,
exact floor).  Division by zero follows the Lean convention x / 0 = 0;
every theorem that depends on a quotient carries the nondegeneracy
hypothesis making the quotient meaningful.
-/

namespace PLC

/-! ### Constants (src/constants.py) -/

/-- Gas constant, J/(mol K) (constants.py, R). -/
def R : ℚ := 8.314

/-- Burgers vector, m (constants.py, b). -/
def b : ℚ := 2.86e-10

/-- Strain rate, 1/s (constants.py, epsilon_dot). -/
def epsilon_dot : ℚ := 1e-3

/-- Mobile dislocation densities, 1/m^2 (constants.py, rho_m_values). -/
def rho_m_values : List ℚ := [1e12, 1e13, 1e14]

/-- Capture radii, m (constants.py, L_capture = [1,2,5]*1e-9). -/
def L_capture : List ℚ := [1e-9, 2e-9, 5e-9]

/-- Travel distances, m (constants.py, L_travel = [0.1,1,10]*1e-6). -/
def L_travel : List ℚ := [1e-7, 1e-6, 1e-5]

/-- DSA analysis temperature grid, K (constants.py,
T_dsa = np.linspace(300, 450, 16): sixteen points with the exact step 10,
listed explicitly). -/
def T_dsa : List ℚ :=
  [300, 310, 320, 330, 340, 350, 360, 370,
    380, 390, 400, 410, 420, 430, 440, 450]

/-- Pipe diffusion enhancement factor (constants.py, f_pipe). -/
def f_pipe : ℚ := 1

/-- Magnesium content in atomic percent (constants.py, Mg_atomic_percent). -/
def Mg_atomic_percent : ℚ := 5.52

/-- Validity threshold on the fit quality (constants.py, msd_r2_threshold). -/
def msd_r2_threshold : ℚ := 0.95

/-- LAMMPS time step in ps (constants.py, timestep_lammps). -/
def timestep_lammps : ℚ := 0.001

/-! ### DSA regime sweeper (src/scripts/analyze_dsa.py) -/

/-- One row of a scenario table: T, D_bulk, D_eff, tau_diff, tau_wait, ratio
(analyze_dsa.py, analyze_dsa_condition, the dict appended per temperature). -/
structure TimescalePoint where
  T : ℚ
  D_bulk : ℚ
  D_eff : ℚ
  tau_diff : ℚ
  tau_wait : ℚ
  ratio : ℚ
deriving DecidableEq, Repr

/-- analyze_dsa.py, compute_tau_diff: diffusion time L_c^2 / D_eff. -/
def compute_tau_diff (L_c D_eff : ℚ) : ℚ := L_c ^ 2 / D_eff

/-- analyze_dsa.py, compute_tau_wait: waiting time L_t / (rho_m b eps). -/
def compute_tau_wait (L_t rho_m b epsilon_dot : ℚ) : ℚ :=
  L_t / (rho_m * b * epsilon_dot)

/-- Value at t of the line through p and q (a segment of the linear
interpolant scipy.interpolate.interp1d builds in analyze_dsa_condition). -/
def segEval (p q : ℚ × ℚ) (t : ℚ) : ℚ :=
  p.2 + (t - p.1) * (q.2 - p.2) / (q.1 - p.1)

/-- Piecewise-linear interpolation with linear extrapolation past both ends,
the exact counterpart of interp1d(kind="linear", fill_value="extrapolate")
on knots sorted by abscissa (analyze_dsa.py, f_D_bulk). -/
def interpLinear : List (ℚ × ℚ) → ℚ → ℚ
  | [], _ => 0
  | [p], _ => p.2
  | [p, q], t => segEval p q t
  | p :: q :: r :: rest, t =>
      if t ≤ q.1 then segEval p q t else interpLinear (q :: r :: rest) t

/-- The loop body of analyze_dsa_condition for one scenario and one
temperature: interpolated D_bulk, pipe-corrected D_eff, both timescales and
their ratio (analyze_dsa.py lines 127-148). -/
def dsaPoint (D_bulk_df : List (ℚ × ℚ)) (pipe_factor rho_m L_c L_t T : ℚ) :
    TimescalePoint :=
  let D_bulk := interpLinear D_bulk_df T
  let D_eff := D_bulk * (1 + pipe_factor)
  let tau_diff := compute_tau_diff L_c D_eff
  let tau_wait := compute_tau_wait L_t rho_m b epsilon_dot
  ⟨T, D_bulk, D_eff, tau_diff, tau_wait, tau_diff / tau_wait⟩

/-- analyze_dsa.py, analyze_dsa_condition: the Cartesian sweep over
(rho_m, L_c, L_t), one table (a list of TimescalePoint over T_dsa) per
scenario key, in the insertion order of the Python dict. -/
def analyze_dsa_condition (D_bulk_df : List (ℚ × ℚ)) (pipe_factor : ℚ) :
    List ((ℚ × ℚ × ℚ) × List TimescalePoint) :=
  rho_m_values.flatMap fun rho_m =>
    L_capture.flatMap fun L_c =>
      L_travel.map fun L_t =>
        ((rho_m, L_c, L_t),
          T_dsa.map (dsaPoint D_bulk_df pipe_factor rho_m L_c L_t))

/-- analyze_dsa.py, main: in_regime = (ratio > 0.1) and (ratio < 10.0). -/
def in_regime (p : TimescalePoint) : Bool :=
  (0.1 < p.ratio) && (p.ratio < 10.0)

/-! ### Ordinary least squares over lists of points

scipy.stats.linregress and the degree-1 np.polyfit are embedded through the
raw power sums of the data; both routines compute, in exact arithmetic, the
ordinary-least-squares line.  Generic over a linear ordered field so that
the same lemmas serve the rational estimator fits and the real-valued
Arrhenius fit. -/

section LinReg

variable {K : Type} [LinearOrderedField K]

/-- Number of points, as a field element. -/
def sN (ps : List (K × K)) : K := (ps.length : K)

/-- Sum of the abscissas. -/
def sX (ps : List (K × K)) : K := (ps.map fun p => p.1).sum

/-- Sum of the ordinates. -/
def sY (ps : List (K × K)) : K := (ps.map fun p => p.2).sum

/-- Sum of the squared abscissas. -/
def sXX (ps : List (K × K)) : K := (ps.map fun p => p.1 ^ 2).sum

/-- Sum of the products. -/
def sXY (ps : List (K × K)) : K := (ps.map fun p => p.1 * p.2).sum

/-- Sum of the squared ordinates. -/
def sYY (ps : List (K × K)) : K := (ps.map fun p => p.2 ^ 2).sum

/-- Determinant of the 2x2 normal-equation matrix, n*Sxx - Sx^2. -/
def detPS (ps : List (K × K)) : K := sN ps * sXX ps - sX ps ^ 2

/-- Slope of the least-squares line, the exact value np.polyfit(x, y, 1)
computes for its leading coefficient. -/
def olsSlope (ps : List (K × K)) : K :=
  (sN ps * sXY ps - sX ps * sY ps) / detPS ps

/-- Intercept of the least-squares line, np.polyfit(x, y, 1) coefficient 1. -/
def olsIntercept (ps : List (K × K)) : K :=
  (sY ps - olsSlope ps * sX ps) / sN ps

/-- Residual sum of squares of the line y = s*x + i on the points. -/
def rss (ps : List (K × K)) (s i : K) : K :=
  (ps.map fun p => (p.2 - (s * p.1 + i)) ^ 2).sum

/-- Textbook squared standard error of the least-squares slope:
RSS / ((n - 2) * sum of squared centered abscissas).  This is the quantity
the specification calls the regression standard error (squared). -/
def slopeStdErrSq (ps : List (K × K)) : K :=
  rss ps (olsSlope ps) (olsIntercept ps) /
    ((sN ps - 2) * (sXX ps - sX ps ^ 2 / sN ps))

end LinReg

/-- Centered second moment of x, np.cov(x, y, bias=1) entry [0,0]
(scipy.stats.linregress, ssxm). -/
def ssxm (ps : List (ℚ × ℚ)) : ℚ := sXX ps / sN ps - (sX ps / sN ps) ^ 2

/-- Centered second moment of y (scipy.stats.linregress, ssym). -/
def ssym (ps : List (ℚ × ℚ)) : ℚ := sYY ps / sN ps - (sY ps / sN ps) ^ 2

/-- Centered mixed moment (scipy.stats.linregress, ssxym). -/
def ssxym (ps : List (ℚ × ℚ)) : ℚ :=
  sXY ps / sN ps - (sX ps / sN ps) * (sY ps / sN ps)

/-- scipy.stats.linregress: slope = ssxym / ssxm. -/
def lrSlope (ps : List (ℚ × ℚ)) : ℚ := ssxym ps / ssxm ps

/-- scipy.stats.linregress: intercept = ymean - slope * xmean. -/
def lrIntercept (ps : List (ℚ × ℚ)) : ℚ :=
  sY ps / sN ps - lrSlope ps * (sX ps / sN ps)

/-- scipy.stats.linregress: r = 0 when ssxm or ssym vanishes, else
ssxym / sqrt(ssxm * ssym); its square is rational.  The clamp of r to
[-1, 1] is the identity in exact arithmetic (Cauchy-Schwarz). -/
def lrR2 (ps : List (ℚ × ℚ)) : ℚ :=
  if ssxm ps = 0 ∨ ssym ps = 0 then 0 else ssxym ps ^ 2 / (ssxm ps * ssym ps)

/-- Square of scipy.stats.linregress slope_stderr =
sqrt((1 - r^2) * ssym / ssxm / (n - 2)), kept squared to stay rational. -/
def lrStdErrSq (ps : List (ℚ × ℚ)) : ℚ :=
  (1 - lrR2 ps) * ssym ps / ssxm ps / (sN ps - 2)

/-! ### MSD series loader (src/scripts/analyze_msd.py, read_msd_file;
src/scripts/check_msd_quality.py, load_msd_file)

A parsed whitespace table is a rectangular block: a column count and the
rows of rational cells.  An all-NaN species column (the 5-column schema
derives the second species as NaN) is an absent column, Option.none: the
only NaN the pipeline produces is a whole missing column. -/

/-- Per-species MSD columns x, y, z, total. -/
structure SpeciesMsd where
  x : List ℚ
  y : List ℚ
  z : List ℚ
  total : List ℚ
deriving DecidableEq, Repr

/-- The uniform in-memory MSD table: step column, Mg columns, and the Al
columns when the schema has them (none encodes the all-NaN derived block). -/
structure MsdTable where
  step : List ℚ
  mg : SpeciesMsd
  al : Option SpeciesMsd
deriving DecidableEq, Repr

/-- The two species of the alloy. -/
inductive Species
  | Mg
  | Al
deriving DecidableEq, Repr

/-- Column i of a parsed rectangular block. -/
def col (rows : List (List ℚ)) (i : ℕ) : List ℚ :=
  rows.map fun r => r.getD i 0

/-- analyze_msd.py, read_msd_file: schema chosen from the column count.
5 columns: step plus the single species (Mg), Al derived as NaN (none).
At least 9: the first 9 columns are kept (raw.iloc up to 9), both species.
Anything else raises, is caught, and the loader yields None. -/
def read_msd_file (ncols : ℕ) (rows : List (List ℚ)) : Option MsdTable :=
  if ncols = 5 then
    some ⟨col rows 0, ⟨col rows 1, col rows 2, col rows 3, col rows 4⟩, none⟩
  else if 9 ≤ ncols then
    let r9 := rows.map fun r => r.take 9
    some ⟨col r9 0, ⟨col r9 1, col r9 2, col r9 3, col r9 4⟩,
      some ⟨col r9 5, col r9 6, col r9 7, col r9 8⟩⟩
  else none

/-- The schema tag of check_msd_quality.py, load_msd_file. -/
inductive Schema
  | bulk
  | interface
deriving DecidableEq, Repr

/-- check_msd_quality.py, load_msd_file: same column-count dispatch, but the
format failure is surfaced as the raised error (caught by the caller, which
skips the file). -/
def load_msd_file (ncols : ℕ) (rows : List (List ℚ)) :
    Except String (MsdTable × Schema) :=
  if ncols = 5 then
    .ok (⟨col rows 0, ⟨col rows 1, col rows 2, col rows 3, col rows 4⟩, none⟩,
      .bulk)
  else if 9 ≤ ncols then
    let r9 := rows.map fun r => r.take 9
    .ok (⟨col r9 0, ⟨col r9 1, col r9 2, col r9 3, col r9 4⟩,
      some ⟨col r9 5, col r9 6, col r9 7, col r9 8⟩⟩, .interface)
  else .error "Unexpected number of columns"

/-- The msd_(species)_total column compute_diffusivity reads; none means the
column is entirely NaN (the species is absent from this run). -/
def msdColumn (tbl : MsdTable) : Species → Option (List ℚ)
  | .Mg => some tbl.mg.total
  | .Al => tbl.al.map fun s => s.total

/-! ### Diffusivity estimator (src/scripts/analyze_msd.py,
compute_diffusivity) -/

/-- The triple compute_diffusivity returns on success: D = slope / 6,
r2, and the standard error divided by 6.  The standard error is carried
squared (errSq is the square of std_err / 6.0) so the record stays
rational; the reported real value is FitRes.err. -/
structure FitRes where
  D : ℚ
  r2 : ℚ
  errSq : ℚ
deriving DecidableEq, Repr

/-- The real-valued uncertainty the script returns, std_err / 6. -/
noncomputable def FitRes.err (f : FitRes) : ℝ := Real.sqrt (f.errSq : ℝ)

/-- The SI point list (time in s, MSD in m^2) compute_diffusivity hands to
linregress: the unit conversions and transient cut of its lines 101-113,
factored out so the fitted points can be named in statements. -/
def estPoints (steps msd : List ℚ) (timestep start_fraction : ℚ) :
    List (ℚ × ℚ) :=
  let time := steps.map (· * timestep)
  let start_idx := (⌊(time.length : ℚ) * start_fraction⌋).toNat
  ((time.drop start_idx).map (· * 1e-12)).zip
    ((msd.drop start_idx).map (· * 1e-20))

/-- analyze_msd.py, compute_diffusivity: time = step * timestep (ps); the
all-NaN column check; drop the first int(N * start_fraction) samples; fewer
than 10 left yields the sentinel None; convert to SI (ps to s, A^2 to m^2);
linregress of MSD against time; D = slope / 6, r2, std_err / 6. -/
def compute_diffusivity (msd_data : MsdTable) (species : Species)
    (timestep start_fraction : ℚ) : Option FitRes :=
  let time := msd_data.step.map (· * timestep)
  match msdColumn msd_data species with
  | none => none
  | some msd =>
    let start_idx := (⌊(time.length : ℚ) * start_fraction⌋).toNat
    let time2 := time.drop start_idx
    if time2.length < 10 then none
    else
      let ps := estPoints msd_data.step msd timestep start_fraction
      some ⟨lrSlope ps / 6, lrR2 ps, lrStdErrSq ps / 36⟩

/-! ### Interface estimator (src/scripts/analyze_interface_msd.py) -/

/-- The per-species result dict of analyze_interface_msd.py; std_err / 2.0
is carried squared (errSq) to stay rational. -/
structure IfaceRes where
  D : ℚ
  slope : ℚ
  intercept : ℚ
  R2 : ℚ
  errSq : ℚ
  points : ℕ
deriving DecidableEq, Repr

/-- The reported real uncertainty, std_err / 2. -/
noncomputable def IfaceRes.err (f : IfaceRes) : ℝ := Real.sqrt (f.errSq : ℝ)

/-- The SI point list of the interface fit: time in seconds from
(step - step0) * 0.001 ps, MSD in m^2, after the 20 percent transient cut
(analyze_interface_msd.py lines 27-44, factored out for statements). -/
def ifacePoints (step : List ℚ) (msdCol : List ℚ) : List (ℚ × ℚ) :=
  let step0 := step.headD 0
  let TIME := step.map fun s => (s - step0) * 0.001 * 1e-12
  let msd_m2 := msdCol.map (· * 1e-20)
  let cut_index := (⌊(msd_m2.length : ℚ) * 0.2⌋).toNat
  (TIME.drop cut_index).zip (msd_m2.drop cut_index)

/-- analyze_interface_msd.py, the fit loop body for one species column:
time in seconds from (step - step0) * 0.001 ps, MSD to m^2, discard the
first int(N * 0.2) samples, skip when fewer than 10 remain, else linregress
and D = slope / 2 (single-axis Einstein relation). -/
def analyze_interface_species (step : List ℚ) (msdCol : List ℚ) :
    Option IfaceRes :=
  let cut_index := (⌊((msdCol.map (· * 1e-20)).length : ℚ) * 0.2⌋).toNat
  let remaining := step.length - cut_index
  if remaining < 10 then none
  else
    let ps := ifacePoints step msdCol
    some ⟨lrSlope ps / 2, lrSlope ps, lrIntercept ps, lrR2 ps,
      lrStdErrSq ps / 4, remaining⟩

/-! ### Per-temperature analysis and interdiffusion combination
(src/scripts/analyze_msd.py, analyze_all_temperatures) -/

/-- The per-species entries of one result row: D, the (squared) error,
R2 and the validity flag; None models the NaN the script stores. -/
structure SpeciesOut where
  D : Option ℚ
  DerrSq : Option ℚ
  R2 : Option ℚ
  valid : Bool
deriving DecidableEq, Repr

/-- analyze_msd.py lines 150-180 for one species: the estimator triple, the
non-positive-diffusivity invalidation (D and its error dropped, r2 kept),
and valid = D present and r2 present and r2 at least the threshold. -/
def markSpecies (fit : Option FitRes) : SpeciesOut :=
  match fit with
  | none => ⟨none, none, none, false⟩
  | some f =>
    if f.D ≤ 0 then ⟨none, none, some f.r2, false⟩
    else ⟨some f.D, some f.errSq, some f.r2, decide (msd_r2_threshold ≤ f.r2)⟩

/-- Atomic fraction of Mg (analyze_all_temperatures, x_Mg). -/
def x_Mg : ℚ := Mg_atomic_percent / 100

/-- Atomic fraction of Al (analyze_all_temperatures, x_Al). -/
def x_Al : ℚ := 1 - x_Mg

/-- One row of the aggregated table: per-species outputs plus the
interdiffusion value and its flag. -/
structure AnalyzedRow where
  T : ℚ
  mg : SpeciesOut
  al : SpeciesOut
  D_interdiff : Option ℚ
  valid_interdiff : Bool
deriving DecidableEq, Repr

/-- analyze_msd.py lines 148-197 for one temperature: both species are
estimated and marked, then D_interdiff = x_Mg * D_Al + x_Al * D_Mg exactly
when both species are valid, else NaN (none) and invalid. -/
def analyzeRow (T : ℚ) (msd_data : MsdTable) (start_fraction : ℚ) :
    AnalyzedRow :=
  let mgOut := markSpecies
    (compute_diffusivity msd_data .Mg timestep_lammps start_fraction)
  let alOut := markSpecies
    (compute_diffusivity msd_data .Al timestep_lammps start_fraction)
  if mgOut.valid && alOut.valid then
    ⟨T, mgOut, alOut, some (x_Mg * alOut.D.getD 0 + x_Al * mgOut.D.getD 0),
      true⟩
  else
    ⟨T, mgOut, alOut, none, false⟩

/-- analyze_msd.py, analyze_all_temperatures: the batch loop over the
temperatures; a file whose loader returns None is skipped with continue and
the remaining temperatures are still processed.  Each input is the
temperature with the parsed block (column count and rows) of its file. -/
def analyze_all_temperatures (files : List (ℚ × ℕ × List (List ℚ)))
    (start_fraction : ℚ) : List AnalyzedRow :=
  files.filterMap fun f =>
    (read_msd_file f.2.1 f.2.2).map fun tbl => analyzeRow f.1 tbl start_fraction

/-! ### Arrhenius fitter (src/scripts/fit_arrhenius.py) -/

/-- One row of the diffusivity table handed to fit_arrhenius: temperature,
the selected diffusivity column, and the optional weight/quality column.
None is a NaN cell. -/
structure ArrRow where
  T : Option ℚ
  D : Option ℚ
  w : Option ℚ
deriving DecidableEq, Repr

/-- fit_arrhenius.py lines 54-56: df_valid = dropna on T and the D column,
then, when a weight column is in use, dropna on it as well. -/
def dfValidRows (rows : List ArrRow) (useWeight : Bool) : List ArrRow :=
  let r1 := rows.filter fun r => r.T.isSome && r.D.isSome
  if useWeight then r1.filter fun r => r.w.isSome else r1

/-- fit_arrhenius.py, main lines 171-172: when an r2 threshold above 0 is
given and the quality column exists, keep only rows whose quality passes;
a NaN quality compares False in pandas and the row is dropped. -/
def applyR2Threshold (rows : List ArrRow) (thr : ℚ) : List ArrRow :=
  if 0 < thr then
    rows.filter fun r =>
      match r.w with
      | some w => decide (thr ≤ w)
      | none => false
  else rows

/-- The explicit insufficient-data failure of the fitter (the spec's
InsufficientDataError; the script raises ValueError with the message that
at least 3 data points are needed). -/
inductive FitError
  | insufficientData
deriving DecidableEq, Repr

/-- What fit_arrhenius returns: D0, Q, Q_eV, the pair popt, the 2x2 pcov
assembled as [[D0_err^2, 0], [0, Q_err^2]], and df_valid. -/
structure ArrFit where
  D0 : ℝ
  Q : ℝ
  Q_eV : ℝ
  popt : ℝ × ℝ
  pcov00 : ℝ
  pcov01 : ℝ
  pcov10 : ℝ
  pcov11 : ℝ
  dfValid : List ArrRow

/-- The abscissas 1/T of the linearized fit, kept rational so that
nondegeneracy of the design matrix is decidable. -/
def invTList (rows : List ArrRow) (useWeight : Bool) : List ℚ :=
  (dfValidRows rows useWeight).map fun r => 1 / r.T.getD 0

/-- Rational form of the normal-equation determinant of the 1/T abscissas. -/
def invTDet (rows : List ArrRow) (useWeight : Bool) : ℚ :=
  let xs := invTList rows useWeight
  (xs.length : ℚ) * (xs.map fun x => x ^ 2).sum - (xs.sum) ^ 2

/-- The points (1/T, log D) of fit_arrhenius lines 61-64 (inv_T, log_D). -/
noncomputable def arrPoints (rows : List ArrRow) (useWeight : Bool) :
    List (ℝ × ℝ) :=
  (dfValidRows rows useWeight).map fun r =>
    (((1 / r.T.getD 0 : ℚ) : ℝ), Real.log ((r.D.getD 0 : ℚ) : ℝ))

/-- Variance of the slope in np.polyfit(x, y, 1, cov=True): the residual
sum of squares over n - 2 degrees of freedom times entry [0,0] of the
inverse normal matrix, n / det. -/
noncomputable def covSlopeR (ps : List (ℝ × ℝ)) : ℝ :=
  rss ps (olsSlope ps) (olsIntercept ps) / (sN ps - 2) * sN ps / detPS ps

/-- Variance of the intercept in np.polyfit(x, y, 1, cov=True): Sxx / det
scaled the same way. -/
noncomputable def covInterceptR (ps : List (ℝ × ℝ)) : ℝ :=
  rss ps (olsSlope ps) (olsIntercept ps) / (sN ps - 2) * sXX ps / detPS ps

/-- fit_arrhenius.py, fit_arrhenius: fewer than 3 usable rows raises; else
ordinary least squares on (1/T, log D), Q = -slope * R, D0 = exp(intercept),
errors from the covariance of the linear fit (Q_err = slope_err * R,
D0_err = D0 * intercept_err), Q_eV = Q / 96485, and the returned tuple
(D0, Q, Q_eV, popt, pcov, df_valid) with popt = (D0, Q) and
pcov = [[D0_err^2, 0], [0, Q_err^2]].  No other fit is run: the
scipy.optimize.curve_fit import of the script is never called. -/
noncomputable def fit_arrhenius (rows : List ArrRow) (useWeight : Bool) :
    Except FitError ArrFit :=
  let df_valid := dfValidRows rows useWeight
  if df_valid.length < 3 then .error .insufficientData
  else
    let ps := arrPoints rows useWeight
    let slope := olsSlope ps
    let intercept := olsIntercept ps
    let Q := -slope * (R : ℝ)
    let D0 := Real.exp intercept
    let slope_err := Real.sqrt (covSlopeR ps)
    let intercept_err := Real.sqrt (covInterceptR ps)
    let Q_err := slope_err * (R : ℝ)
    let D0_err := D0 * intercept_err
    .ok ⟨D0, Q, Q / 96485, (D0, Q), D0_err ^ 2, 0, 0, Q_err ^ 2, df_valid⟩

/-- The numeric outputs of the fitter (everything but df_valid), the tuple
compared across runs for the weight-insensitivity property. -/
noncomputable def fitArrCore (rows : List ArrRow) (useWeight : Bool) :
    Except FitError (ℝ × ℝ × ℝ × (ℝ × ℝ) × (ℝ × ℝ × ℝ × ℝ)) :=
  (fit_arrhenius rows useWeight).map fun res =>
    (res.D0, res.Q, res.Q_eV, res.popt,
      (res.pcov00, res.pcov01, res.pcov10, res.pcov11))

/-! ### Concrete example inputs used by the witnesses -/

/-- Twelve equally spaced steps. -/
def exSteps : List ℚ := [0, 1, 2, 3, 4, 5, 6, 7, 8, 9, 10, 11]

/-- A 12-sample MSD table whose total columns grow perfectly linearly in
the step, for both species. -/
def exMsd : MsdTable :=
  ⟨exSteps, ⟨[], [], [], exSteps⟩, some ⟨[], [], [], exSteps⟩⟩

/-- A three-row diffusivity table with distinct temperatures. -/
def exArrRows : List ArrRow :=
  [⟨some 500, some 1e-12, some 0.96⟩, ⟨some 600, some 1e-11, some 0.97⟩,
    ⟨some 700, some 1e-10, some 0.99⟩]

/-- The same (T, D) rows as exArrRows with different quality values. -/
def exArrRows2 : List ArrRow :=
  [⟨some 500, some 1e-12, some 0.51⟩, ⟨some 600, some 1e-11, some 0.52⟩,
    ⟨some 700, some 1e-10, some 0.53⟩]

/-- A flat bulk-diffusivity curve used by the DSA witnesses. -/
def exDsaDf : List (ℚ × ℚ) := [(300, 2), (450, 2)]

/-! ## Theorems -/

/-- Any entry of the sweep output comes from the configured parameter sets
and is the table of dsaPoint rows over the DSA grid. -/
theorem mem_analyze_dsa {df : List (ℚ × ℚ)} {pf : ℚ} {k : ℚ × ℚ × ℚ}
    {pts : List TimescalePoint}
    (h : (k, pts) ∈ analyze_dsa_condition df pf) :
    k.1 ∈ rho_m_values ∧ k.2.1 ∈ L_capture ∧ k.2.2 ∈ L_travel ∧
      pts = T_dsa.map (dsaPoint df pf k.1 k.2.1 k.2.2) := by
  simp only [analyze_dsa_condition, List.mem_flatMap, List.mem_map] at h
  obtain ⟨rho_m, hrho, L_c, hlc, L_t, hlt, heq⟩ := h
  obtain ⟨hk, hpts⟩ := Prod.mk.injEq .. ▸ heq
  subst hk
  exact ⟨hrho, hlc, hlt, hpts.symm⟩

/-- The fields of one sweep row, by definition. -/
theorem dsaPoint_fields (df : List (ℚ × ℚ)) (pf rho_m L_c L_t T : ℚ) :
    (dsaPoint df pf rho_m L_c L_t T).T = T ∧
    (dsaPoint df pf rho_m L_c L_t T).D_bulk = interpLinear df T ∧
    (dsaPoint df pf rho_m L_c L_t T).D_eff = interpLinear df T * (1 + pf) ∧
    (dsaPoint df pf rho_m L_c L_t T).tau_diff =
      compute_tau_diff L_c (dsaPoint df pf rho_m L_c L_t T).D_eff ∧
    (dsaPoint df pf rho_m L_c L_t T).tau_wait =
      compute_tau_wait L_t rho_m b epsilon_dot ∧
    (dsaPoint df pf rho_m L_c L_t T).ratio =
      (dsaPoint df pf rho_m L_c L_t T).tau_diff /
        (dsaPoint df pf rho_m L_c L_t T).tau_wait :=
  ⟨rfl, rfl, rfl, rfl, rfl, rfl⟩

/-- Configured capture radii are positive. -/
theorem L_capture_pos {x : ℚ} (h : x ∈ L_capture) : 0 < x := by
  fin_cases h <;> norm_num

/-- Configured travel distances are positive. -/
theorem L_travel_pos {x : ℚ} (h : x ∈ L_travel) : 0 < x := by
  fin_cases h <;> norm_num

/-- Configured mobile densities are positive. -/
theorem rho_m_pos {x : ℚ} (h : x ∈ rho_m_values) : 0 < x := by
  fin_cases h <;> norm_num

/-- Squares of distinct positive rationals are distinct. -/
theorem sq_ne_of_pos_ne {a c : ℚ} (ha : 0 < a) (hc : 0 < c) (h : a ≠ c) :
    a ^ 2 ≠ c ^ 2 := by
  rcases lt_or_gt_of_ne h with hlt | hgt
  · exact ne_of_lt (by nlinarith)
  · exact ne_of_gt (by nlinarith)

/-- C1: every scenario of the Cartesian product of the configured parameter
sets appears in the sweep output with one row per grid temperature, and
every output row satisfies D_eff = D_bulk * (1 + pipe_factor),
tau_diff = L_c^2 / D_eff (capture radius), tau_wait =
L_t / (rho * b * strain_rate) (travel distance) and ratio =
tau_diff / tau_wait; swapping L_c and L_t changes both timescales whenever
L_c and L_t differ (and D_eff is nonzero for the diffusion time). -/
theorem C1_dsa_sweep (df : List (ℚ × ℚ)) (pf : ℚ) :
    (∀ rho_m ∈ rho_m_values, ∀ L_c ∈ L_capture, ∀ L_t ∈ L_travel,
      ((rho_m, L_c, L_t), T_dsa.map (dsaPoint df pf rho_m L_c L_t)) ∈
        analyze_dsa_condition df pf) ∧
    (∀ rho_m L_c L_t pts,
      ((rho_m, L_c, L_t), pts) ∈ analyze_dsa_condition df pf →
      pts.map TimescalePoint.T = T_dsa ∧
      ∀ p ∈ pts,
        p.D_bulk = interpLinear df p.T ∧
        p.D_eff = p.D_bulk * (1 + pf) ∧
        p.tau_diff = compute_tau_diff L_c p.D_eff ∧
        p.tau_wait = compute_tau_wait L_t rho_m b epsilon_dot ∧
        p.ratio = p.tau_diff / p.tau_wait ∧
        (L_c ≠ L_t → p.D_eff ≠ 0 →
          compute_tau_diff L_t p.D_eff ≠ p.tau_diff ∧
          compute_tau_wait L_c rho_m b epsilon_dot ≠ p.tau_wait)) := by
  constructor
  · intro rho_m hrho L_c hlc L_t hlt
    simp only [analyze_dsa_condition, List.mem_flatMap, List.mem_map]
    exact ⟨rho_m, hrho, L_c, hlc, L_t, hlt, rfl⟩
  · intro rho_m L_c L_t pts h
    obtain ⟨hrho, hlc, hlt, hpts⟩ := mem_analyze_dsa h
    dsimp only at hrho hlc hlt hpts
    subst hpts
    constructor
    · have hid : TimescalePoint.T ∘ dsaPoint df pf rho_m L_c L_t = id :=
        funext fun T => rfl
      rw [List.map_map, hid, List.map_id]
    · intro p hp
      obtain ⟨T, hT, rfl⟩ := List.mem_map.mp hp
      refine ⟨rfl, rfl, rfl, rfl, rfl, ?_⟩
      intro hne hD
      have hlc0 := L_capture_pos hlc
      have hlt0 := L_travel_pos hlt
      have hrb : rho_m * b * epsilon_dot ≠ 0 := by
        have := rho_m_pos hrho
        simp only [b, epsilon_dot]
        positivity
      constructor
      · have ht : (dsaPoint df pf rho_m L_c L_t T).tau_diff =
            compute_tau_diff L_c (dsaPoint df pf rho_m L_c L_t T).D_eff := rfl
        rw [ht]
        simp only [compute_tau_diff]
        intro hcontra
        rw [div_eq_div_iff hD hD] at hcontra
        have h2 : L_t ^ 2 = L_c ^ 2 := mul_right_cancel₀ hD hcontra
        exact sq_ne_of_pos_ne hlt0 hlc0 (Ne.symm hne) h2
      · have ht : (dsaPoint df pf rho_m L_c L_t T).tau_wait =
            compute_tau_wait L_t rho_m b epsilon_dot := rfl
        rw [ht]
        simp only [compute_tau_wait]
        intro hcontra
        rw [div_eq_div_iff hrb hrb] at hcontra
        exact hne (mul_right_cancel₀ hrb hcontra)

/-- Witness for C1: the scenario (1e13, 2e-9, 1e-6) on a flat curve, and
the concrete swap inequality at T = 300. -/
theorem C1_dsa_sweep_witness :
    ((((1e13 : ℚ), (2e-9 : ℚ), (1e-6 : ℚ)),
        T_dsa.map (dsaPoint exDsaDf 1 1e13 2e-9 1e-6)) ∈
      analyze_dsa_condition exDsaDf 1) ∧
    (dsaPoint exDsaDf 1 1e13 2e-9 1e-6 300).tau_wait
        = compute_tau_wait 1e-6 1e13 b epsilon_dot ∧
    compute_tau_diff 1e-6 (dsaPoint exDsaDf 1 1e13 2e-9 1e-6 300).D_eff
        ≠ (dsaPoint exDsaDf 1 1e13 2e-9 1e-6 300).tau_diff := by
  have h := C1_dsa_sweep exDsaDf 1
  have h1 := h.1 (1e13 : ℚ) (by norm_num [rho_m_values]) (2e-9 : ℚ)
    (by norm_num [L_capture]) (1e-6 : ℚ) (by norm_num [L_travel])
  have hp : dsaPoint exDsaDf 1 1e13 2e-9 1e-6 300 ∈
      T_dsa.map (dsaPoint exDsaDf 1 1e13 2e-9 1e-6) :=
    List.mem_map_of_mem _ (show (300 : ℚ) ∈ T_dsa by norm_num [T_dsa])
  obtain ⟨-, -, -, hw, -, hs⟩ := (h.2 _ _ _ _ h1).2 _ hp
  have hD : (dsaPoint exDsaDf 1 1e13 2e-9 1e-6 300).D_eff ≠ 0 := by
    norm_num [dsaPoint, interpLinear, segEval, exDsaDf]
  exact ⟨h1, hw, (hs (by norm_num) hD).1⟩

/-- C9: a row is classified DSA-possible exactly when 0.1 < ratio < 10; a
sweep row with tau_diff = tau_wait (nonzero) has ratio 1 and is
DSA-possible; rows with ratio 0.05 or 15 are not in the regime. -/
theorem C9_regime_classification :
    (∀ p : TimescalePoint, in_regime p = true ↔ 0.1 < p.ratio ∧ p.ratio < 10) ∧
    (∀ df pf rho_m L_c L_t T,
      (dsaPoint df pf rho_m L_c L_t T).tau_wait ≠ 0 →
      (dsaPoint df pf rho_m L_c L_t T).tau_diff =
        (dsaPoint df pf rho_m L_c L_t T).tau_wait →
      (dsaPoint df pf rho_m L_c L_t T).ratio = 1 ∧
      in_regime (dsaPoint df pf rho_m L_c L_t T) = true) ∧
    (∀ p : TimescalePoint, p.ratio = 0.05 → in_regime p = false) ∧
    (∀ p : TimescalePoint, p.ratio = 15 → in_regime p = false) := by
  refine ⟨?_, ?_, ?_, ?_⟩
  · intro p
    simp only [in_regime, Bool.and_eq_true, decide_eq_true_eq]
    norm_num
  · intro df pf rho_m L_c L_t T hw he
    have hr : (dsaPoint df pf rho_m L_c L_t T).ratio =
        (dsaPoint df pf rho_m L_c L_t T).tau_diff /
          (dsaPoint df pf rho_m L_c L_t T).tau_wait := rfl
    rw [he, div_self hw] at hr
    refine ⟨hr, ?_⟩
    simp only [in_regime, hr]
    norm_num
  · intro p h
    simp only [in_regime, h]
    norm_num
  · intro p h
    simp only [in_regime, h]
    norm_num

/-- Witness for C9: a sweep row engineered so both timescales are exactly
1, plus literal rows at ratio 0.05 and 15. -/
theorem C9_regime_witness :
    (dsaPoint [((0 : ℚ), (1 : ℚ))] 0 1 1 2.86e-13 0).ratio = 1 ∧
    in_regime (dsaPoint [((0 : ℚ), (1 : ℚ))] 0 1 1 2.86e-13 0) = true ∧
    in_regime ⟨300, 0, 0, 0, 0, 0.05⟩ = false ∧
    in_regime ⟨300, 0, 0, 0, 0, 15⟩ = false := by
  have h := C9_regime_classification
  have hw : (dsaPoint [((0 : ℚ), (1 : ℚ))] 0 1 1 2.86e-13 0).tau_wait ≠ 0 := by
    norm_num [dsaPoint, interpLinear, compute_tau_wait, b, epsilon_dot]
  have he : (dsaPoint [((0 : ℚ), (1 : ℚ))] 0 1 1 2.86e-13 0).tau_diff =
      (dsaPoint [((0 : ℚ), (1 : ℚ))] 0 1 1 2.86e-13 0).tau_wait := by
    norm_num [dsaPoint, interpLinear, compute_tau_diff, compute_tau_wait, b,
      epsilon_dot]
  have h2 := h.2.1 [((0 : ℚ), (1 : ℚ))] 0 1 1 2.86e-13 0 hw he
  exact ⟨h2.1, h2.2, h.2.2.1 _ rfl, h.2.2.2 _ rfl⟩

/-- C3: in every analysis row the interdiffusion value is marked valid
exactly when both species are individually valid; otherwise it is absent
(NaN); and when valid its value is x_Mg * D_Al + x_Al * D_Mg. -/
theorem C3_interdiffusion_gate (T : ℚ) (tbl : MsdTable) (sf : ℚ) :
    ((analyzeRow T tbl sf).valid_interdiff = true ↔
      (analyzeRow T tbl sf).mg.valid = true ∧
        (analyzeRow T tbl sf).al.valid = true) ∧
    ((analyzeRow T tbl sf).valid_interdiff = false →
      (analyzeRow T tbl sf).D_interdiff = none) ∧
    (∀ dMg dAl, (analyzeRow T tbl sf).mg.D = some dMg →
      (analyzeRow T tbl sf).al.D = some dAl →
      (analyzeRow T tbl sf).valid_interdiff = true →
      (analyzeRow T tbl sf).D_interdiff = some (x_Mg * dAl + x_Al * dMg)) := by
  cases hb : (markSpecies
      (compute_diffusivity tbl .Mg timestep_lammps sf)).valid &&
      (markSpecies (compute_diffusivity tbl .Al timestep_lammps sf)).valid with
  | false =>
    have hrow : analyzeRow T tbl sf =
        ⟨T, markSpecies (compute_diffusivity tbl .Mg timestep_lammps sf),
          markSpecies (compute_diffusivity tbl .Al timestep_lammps sf),
          none, false⟩ := by
      simp only [analyzeRow, hb, Bool.false_eq_true, if_false]
    rw [Bool.and_eq_false_iff] at hb
    refine ⟨?_, fun _ => by rw [hrow], ?_⟩
    · rw [hrow]
      dsimp only
      simp only [Bool.false_eq_true, false_iff, not_and]
      intro h1 h2
      rcases hb with hb | hb <;> simp_all
    · intro dMg dAl _ _ hco
      rw [hrow] at hco
      exact absurd hco (by simp)
  | true =>
    have hrow : analyzeRow T tbl sf =
        ⟨T, markSpecies (compute_diffusivity tbl .Mg timestep_lammps sf),
          markSpecies (compute_diffusivity tbl .Al timestep_lammps sf),
          some (x_Mg * (markSpecies
              (compute_diffusivity tbl .Al timestep_lammps sf)).D.getD 0 +
            x_Al * (markSpecies
              (compute_diffusivity tbl .Mg timestep_lammps sf)).D.getD 0),
          true⟩ := by
      simp only [analyzeRow, hb, if_true]
    rw [Bool.and_eq_true] at hb
    refine ⟨?_, ?_, ?_⟩
    · rw [hrow]
      exact ⟨fun _ => ⟨hb.1, hb.2⟩, fun _ => rfl⟩
    · rw [hrow]
      simp
    · intro dMg dAl h1 h2 _
      rw [hrow] at h1 h2 ⊢
      dsimp only at h1 h2 ⊢
      simp only [h1, h2, Option.getD_some]

/-- Witness for C3: both species valid on a perfectly linear table, so the
combined value is produced. -/
theorem C3_interdiffusion_witness :
    (analyzeRow 500 exMsd 0).valid_interdiff = true ∧
    (analyzeRow 500 exMsd 0).D_interdiff =
      some (x_Mg * (1 / 600000) + x_Al * (1 / 600000)) := by
  have hrow : analyzeRow 500 exMsd 0 =
      ⟨500, ⟨some (1 / 600000), some 0, some 1, true⟩,
        ⟨some (1 / 600000), some 0, some 1, true⟩, some (1 / 600000),
        true⟩ := by
    norm_num [analyzeRow, markSpecies, compute_diffusivity, msdColumn, exMsd,
      exSteps, estPoints, lrSlope, lrIntercept, lrR2, lrStdErrSq, ssxm, ssym,
      ssxym, sX, sY, sXX, sXY, sYY, sN, timestep_lammps, msd_r2_threshold,
      x_Mg, x_Al, Mg_atomic_percent, List.zip]
  have h := C3_interdiffusion_gate 500 exMsd 0
  have hv : (analyzeRow 500 exMsd 0).valid_interdiff = true :=
    h.1.mpr ⟨by rw [hrow], by rw [hrow]⟩
  exact ⟨hv, h.2.2 _ _ (by rw [hrow]) (by rw [hrow]) hv⟩

/-- C7: the estimator returns the sentinel (None) whenever the requested
column is entirely NaN, and whenever fewer than 10 samples remain after the
transient cut of the first floor(N * f) samples. -/
theorem C7_estimator_sentinel (tbl : MsdTable) (sp : Species) (ts sf : ℚ) :
    (msdColumn tbl sp = none → compute_diffusivity tbl sp ts sf = none) ∧
    (∀ msd, msdColumn tbl sp = some msd →
      tbl.step.length - (⌊(tbl.step.length : ℚ) * sf⌋).toNat < 10 →
      compute_diffusivity tbl sp ts sf = none) := by
  constructor
  · intro h
    simp only [compute_diffusivity, h]
  · intro msd h hlen
    simp only [compute_diffusivity, h]
    rw [if_pos]
    simp only [List.length_drop, List.length_map]
    exact hlen

/-- Witness for C7: the Al column of a 5-column file is absent, and a
3-sample series is too short. -/
theorem C7_estimator_witness :
    compute_diffusivity ⟨[0, 1, 2], ⟨[], [], [], [0, 1, 2]⟩, none⟩ .Al 1 0 =
      none ∧
    compute_diffusivity ⟨[0, 1, 2], ⟨[], [], [], [0, 1, 2]⟩, none⟩ .Mg 1 0 =
      none := by
  refine ⟨(C7_estimator_sentinel _ _ _ _).1 rfl,
    (C7_estimator_sentinel _ _ _ _).2 [0, 1, 2] rfl ?_⟩
  norm_num

/-- C8: the loader dispatches on the column count alone: 5 columns gives
the single-species table (second species absent), at least 9 gives the
two-species table ignoring columns beyond the ninth, anything else fails
(None from read_msd_file, an error from load_msd_file) and the failed file
is skipped while the batch continues. -/
theorem C8_loader_column_count :
    (∀ rows : List (List ℚ),
      read_msd_file 5 rows =
        some ⟨col rows 0, ⟨col rows 1, col rows 2, col rows 3, col rows 4⟩,
          none⟩ ∧
      load_msd_file 5 rows =
        .ok (⟨col rows 0, ⟨col rows 1, col rows 2, col rows 3, col rows 4⟩,
          none⟩, .bulk)) ∧
    (∀ (ncols : ℕ) (rows : List (List ℚ)), 9 ≤ ncols →
      read_msd_file ncols rows =
        read_msd_file 9 (rows.map fun r => r.take 9) ∧
      ∃ t : MsdTable, read_msd_file ncols rows = some t ∧ t.al.isSome ∧
        load_msd_file ncols rows = .ok (t, .interface)) ∧
    (∀ (ncols : ℕ) (rows : List (List ℚ)), ncols ≠ 5 → ncols < 9 →
      read_msd_file ncols rows = none ∧
      ∃ msg, load_msd_file ncols rows = .error msg) ∧
    (∀ (T0 : ℚ) (ncols : ℕ) (rows : List (List ℚ))
      (xs ys : List (ℚ × ℕ × List (List ℚ))) (sf : ℚ),
      read_msd_file ncols rows = none →
      analyze_all_temperatures (xs ++ (T0, ncols, rows) :: ys) sf =
        analyze_all_temperatures (xs ++ ys) sf) := by
  refine ⟨?_, ?_, ?_, ?_⟩
  · intro rows
    constructor <;> simp [read_msd_file, load_msd_file]
  · intro ncols rows hn
    have h5 : ncols ≠ 5 := by omega
    refine ⟨?_, ?_⟩
    · simp [read_msd_file, h5, hn, List.map_map, Function.comp_def,
        List.take_take, min_self]
    · refine ⟨⟨col (rows.map fun r => r.take 9) 0,
        ⟨col (rows.map fun r => r.take 9) 1, col (rows.map fun r => r.take 9) 2,
          col (rows.map fun r => r.take 9) 3,
          col (rows.map fun r => r.take 9) 4⟩,
        some ⟨col (rows.map fun r => r.take 9) 5,
          col (rows.map fun r => r.take 9) 6,
          col (rows.map fun r => r.take 9) 7,
          col (rows.map fun r => r.take 9) 8⟩⟩,
        by simp [read_msd_file, h5, hn], by simp,
        by simp [load_msd_file, h5, hn]⟩
  · intro ncols rows h5 h9
    have h9' : ¬ 9 ≤ ncols := by omega
    exact ⟨by simp [read_msd_file, h5, h9'],
      ⟨"Unexpected number of columns", by simp [load_msd_file, h5, h9']⟩⟩
  · intro T0 ncols rows xs ys sf h
    simp [analyze_all_temperatures, List.filterMap_append,
      List.filterMap_cons, h]

/-- Witness for C8: a 7-column file is rejected and skipped; a 10-column
file loads exactly as its first nine columns. -/
theorem C8_loader_witness :
    read_msd_file 7 [[1, 2, 3, 4, 5, 6, 7]] = none ∧
    read_msd_file 10 [[0, 1, 2, 3, 4, 5, 6, 7, 8, 9]] =
      read_msd_file 9 [[0, 1, 2, 3, 4, 5, 6, 7, 8]] ∧
    analyze_all_temperatures
        [(500, 7, [[1, 2, 3, 4, 5, 6, 7]]), (600, 5, [[1, 2, 3, 4, 5]])] 0 =
      analyze_all_temperatures [(600, 5, [[1, 2, 3, 4, 5]])] 0 := by
  have h := C8_loader_column_count
  have h3 := (h.2.2.1 7 [[1, 2, 3, 4, 5, 6, 7]] (by norm_num) (by norm_num)).1
  have h2 := (h.2.1 10 [[0, 1, 2, 3, 4, 5, 6, 7, 8, 9]] (by norm_num)).1
  refine ⟨h3, ?_, h.2.2.2 500 7 [[1, 2, 3, 4, 5, 6, 7]] []
    [(600, 5, [[1, 2, 3, 4, 5]])] 0 h3⟩
  rw [h2]
  simp

/-- C5: with fewer than 3 usable rows after the NaN drops the fitter fails
with the insufficient-data error; in particular, when every row is excluded
by the quality gate the fit on the filtered table fails this way. -/
theorem C5_insufficient_data (rows : List ArrRow) (uw : Bool) :
    ((dfValidRows rows uw).length < 3 →
      fit_arrhenius rows uw = .error .insufficientData) ∧
    (∀ thr : ℚ, 0 < thr → (∀ r ∈ rows, ∀ w, r.w = some w → w < thr) →
      fit_arrhenius (applyR2Threshold rows thr) uw =
        .error .insufficientData) := by
  constructor
  · intro h
    simp only [fit_arrhenius]
    rw [if_pos h]
  · intro thr hthr hbelow
    have hempty : applyR2Threshold rows thr = [] := by
      simp only [applyR2Threshold, if_pos hthr]
      rw [List.filter_eq_nil_iff]
      intro r hr
      rcases hw : r.w with _ | w
      · simp
      · simp only [decide_eq_true_eq]
        exact not_le.mpr (hbelow r hr w hw)
    rw [hempty]
    have hlen : (dfValidRows [] uw).length < 3 := by
      rcases uw <;> simp [dfValidRows]
    simp only [fit_arrhenius]
    rw [if_pos hlen]

/-- Witness for C5: a single-row table, and a three-row table whose every
quality value is below the gate. -/
theorem C5_insufficient_witness :
    fit_arrhenius [⟨some 500, some 1e-12, none⟩] false =
      .error .insufficientData ∧
    fit_arrhenius (applyR2Threshold exArrRows2 0.95) true =
      .error .insufficientData := by
  refine ⟨(C5_insufficient_data _ _).1 (by norm_num [dfValidRows]),
    (C5_insufficient_data _ _).2 0.95 (by norm_num) ?_⟩
  intro r hr w hw
  fin_cases hr <;> simp_all [exArrRows2] <;> subst hw <;> norm_num

/-- C6 support: the fitter never runs the advertised nonlinear refinement:
on success it returns exactly the linear-fit parameters, popt is literally
the pair (D0, Q) of the linear fit, the off-diagonal covariance entries are
zero by construction, and the result type records no strategy tag. -/
theorem C6_no_refinement (rows : List ArrRow) (uw : Bool)
    (h : ¬ (dfValidRows rows uw).length < 3) :
    ∃ res, fit_arrhenius rows uw = .ok res ∧
      res.popt = (res.D0, res.Q) ∧ res.pcov01 = 0 ∧ res.pcov10 = 0 ∧
      res.D0 = Real.exp (olsIntercept (arrPoints rows uw)) ∧
      res.Q = -olsSlope (arrPoints rows uw) * (R : ℝ) := by
  simp only [fit_arrhenius]
  rw [if_neg h]
  exact ⟨_, rfl, rfl, rfl, rfl, rfl, rfl⟩

/-- Witness for C6 at a concrete three-row table. -/
theorem C6_no_refinement_witness :
    ∃ res, fit_arrhenius exArrRows true = .ok res ∧
      res.popt = (res.D0, res.Q) ∧ res.pcov01 = 0 ∧ res.pcov10 = 0 ∧
      res.D0 = Real.exp (olsIntercept (arrPoints exArrRows true)) ∧
      res.Q = -olsSlope (arrPoints exArrRows true) * (R : ℝ) :=
  C6_no_refinement exArrRows true (by norm_num [dfValidRows, exArrRows])

/-! ### Least-squares facts shared by the estimator and the Arrhenius fitter -/

section OLSLemmas

variable {K : Type} [LinearOrderedField K]

/-- Expansion of the residual sum of squares into the power sums. -/
theorem rss_expand (ps : List (K × K)) (s i : K) :
    rss ps s i = sYY ps - 2 * s * sXY ps - 2 * i * sY ps + s ^ 2 * sXX ps +
      2 * s * i * sX ps + sN ps * i ^ 2 := by
  induction ps with
  | nil => simp [rss, sYY, sXY, sY, sXX, sX, sN]
  | cons p t ih =>
    simp only [rss, sYY, sXY, sY, sXX, sX, sN, List.map_cons, List.sum_cons,
      List.length_cons] at ih ⊢
    push_cast at ih ⊢
    linear_combination ih

/-- Expansion of a sum of squares of a linear form of the abscissas. -/
theorem sum_sq_linear_x (ps : List (K × K)) (a c : K) :
    (ps.map fun p => (a * p.1 - c) ^ 2).sum =
      a ^ 2 * sXX ps - 2 * a * c * sX ps + sN ps * c ^ 2 := by
  induction ps with
  | nil => simp [sXX, sX, sN]
  | cons p t ih =>
    simp only [sXX, sX, sN, List.map_cons, List.sum_cons,
      List.length_cons] at ih ⊢
    push_cast at ih ⊢
    linear_combination ih

/-- A residual sum of squares is nonnegative. -/
theorem rss_nonneg (ps : List (K × K)) (s i : K) : 0 ≤ rss ps s i := by
  apply List.sum_nonneg
  intro x hx
  obtain ⟨p, -, rfl⟩ := List.mem_map.mp hx
  positivity

/-- The design determinant n * Sxx - Sx^2 is nonnegative (Cauchy-Schwarz). -/
theorem detPS_nonneg (ps : List (K × K)) : 0 ≤ detPS ps := by
  rcases ps with _ | ⟨p, t⟩
  · simp [detPS, sN, sXX, sX]
  · have hn : (0 : K) < sN (p :: t) := by
      simp only [sN, List.length_cons]
      exact_mod_cast Nat.succ_pos t.length
    have hsum : 0 ≤ ((p :: t).map fun q =>
        (sN (p :: t) * q.1 - sX (p :: t)) ^ 2).sum := by
      apply List.sum_nonneg
      intro x hx
      obtain ⟨q, -, rfl⟩ := List.mem_map.mp hx
      positivity
    rw [sum_sq_linear_x] at hsum
    have hdd : detPS (p :: t) =
        sN (p :: t) * sXX (p :: t) - sX (p :: t) ^ 2 := rfl
    rw [hdd]
    nlinarith [hsum, hn, mul_pos hn hn]

/-- A nonzero design determinant forces a nonempty point list. -/
theorem sN_pos_of_det (ps : List (K × K)) (hd : detPS ps ≠ 0) :
    0 < sN ps := by
  rcases ps with _ | ⟨p, t⟩
  · exact absurd (by simp [detPS, sN, sXX, sX]) hd
  · simp only [sN, List.length_cons]
    exact_mod_cast Nat.succ_pos t.length

/-- A nonzero design determinant is positive. -/
theorem detPS_pos (ps : List (K × K)) (hd : detPS ps ≠ 0) : 0 < detPS ps :=
  lt_of_le_of_ne (detPS_nonneg ps) (Ne.symm hd)

/-- The closed-form slope satisfies its normal equation. -/
theorem olsSlope_mul_det (ps : List (K × K)) (hd : detPS ps ≠ 0) :
    olsSlope ps * detPS ps = sN ps * sXY ps - sX ps * sY ps := by
  field_simp [olsSlope]

/-- The closed-form intercept satisfies its normal equation. -/
theorem olsIntercept_mul_n (ps : List (K × K)) (hd : detPS ps ≠ 0) :
    olsIntercept ps * sN ps = sY ps - olsSlope ps * sX ps := by
  have hn := ne_of_gt (sN_pos_of_det ps hd)
  field_simp [olsIntercept]

/-- The closed-form line is the ordinary-least-squares minimizer: no other
slope and intercept give a smaller residual sum of squares. -/
theorem ols_min (ps : List (K × K)) (hd : detPS ps ≠ 0) (s i : K) :
    rss ps (olsSlope ps) (olsIntercept ps) ≤ rss ps s i := by
  have hn := sN_pos_of_det ps hd
  have hdp := detPS_pos ps hd
  have hs := olsSlope_mul_det ps hd
  have hi := olsIntercept_mul_n ps hd
  have hdd : detPS ps = sN ps * sXX ps - sX ps ^ 2 := rfl
  rw [hdd] at hdp hs
  rw [rss_expand, rss_expand]
  set n := sN ps
  set X := sX ps
  set Y := sY ps
  set XX := sXX ps
  set P := sXY ps
  set YY := sYY ps
  set s0 := olsSlope ps
  set i0 := olsIntercept ps
  have e1 : n * i0 + s0 * X - Y = 0 := by linear_combination hi
  have e2 : (n * XX - X ^ 2) * s0 - (n * P - X * Y) = 0 := by
    linear_combination hs
  have key : n * (n * XX - X ^ 2) *
      ((YY - 2 * s * P - 2 * i * Y + s ^ 2 * XX + 2 * s * i * X + n * i ^ 2) -
        (YY - 2 * s0 * P - 2 * i0 * Y + s0 ^ 2 * XX + 2 * s0 * i0 * X +
          n * i0 ^ 2)) =
      (n * XX - X ^ 2) * (n * i + s * X - Y) ^ 2 +
        ((n * XX - X ^ 2) * s - (n * P - X * Y)) ^ 2 := by
    linear_combination (-(n * XX - X ^ 2) * (n * i0 + s0 * X - Y)) * e1 +
      (-((n * XX - X ^ 2) * s0 - (n * P - X * Y))) * e2
  nlinarith [key, mul_nonneg (le_of_lt hdp) (sq_nonneg (n * i + s * X - Y)),
    sq_nonneg ((n * XX - X ^ 2) * s - (n * P - X * Y)), mul_pos hn hdp]

/-- Closed form of the minimal residual sum of squares, cleared of
denominators: RSS0 * (n * det) = det * (n*Syy - Sy^2) - (n*Sxy - Sx*Sy)^2. -/
theorem rss_ols_closed (ps : List (K × K)) (hd : detPS ps ≠ 0) :
    rss ps (olsSlope ps) (olsIntercept ps) * (sN ps * detPS ps) =
      detPS ps * (sN ps * sYY ps - sY ps ^ 2) -
        (sN ps * sXY ps - sX ps * sY ps) ^ 2 := by
  have hs := olsSlope_mul_det ps hd
  have hi := olsIntercept_mul_n ps hd
  have hdd : detPS ps = sN ps * sXX ps - sX ps ^ 2 := rfl
  rw [hdd] at hs ⊢
  rw [rss_expand]
  set n := sN ps
  set X := sX ps
  set Y := sY ps
  set XX := sXX ps
  set P := sXY ps
  set YY := sYY ps
  set s0 := olsSlope ps
  set i0 := olsIntercept ps
  have e1 : n * i0 + s0 * X - Y = 0 := by linear_combination hi
  have e2 : (n * XX - X ^ 2) * s0 - (n * P - X * Y) = 0 := by
    linear_combination hs
  linear_combination ((n * XX - X ^ 2) * (n * i0 + s0 * X - Y)) * e1 +
    ((n * XX - X ^ 2) * s0 - (n * P - X * Y)) * e2

end OLSLemmas

/-- The centered second moment scaled by n^2 is the design determinant. -/
theorem ssxm_scaled (ps : List (ℚ × ℚ)) (hn : sN ps ≠ 0) :
    ssxm ps * sN ps ^ 2 = detPS ps := by
  have hdd : detPS ps = sN ps * sXX ps - sX ps ^ 2 := rfl
  rw [hdd, ssxm]
  field_simp
  try ring

/-- The centered second moment of y scaled by n^2. -/
theorem ssym_scaled (ps : List (ℚ × ℚ)) (hn : sN ps ≠ 0) :
    ssym ps * sN ps ^ 2 = sN ps * sYY ps - sY ps ^ 2 := by
  rw [ssym]
  field_simp
  try ring

/-- The centered mixed moment scaled by n^2. -/
theorem ssxym_scaled (ps : List (ℚ × ℚ)) (hn : sN ps ≠ 0) :
    ssxym ps * sN ps ^ 2 = sN ps * sXY ps - sX ps * sY ps := by
  rw [ssxym]
  field_simp
  try ring

/-- With a nondegenerate design, ssxm is nonzero. -/
theorem ssxm_ne_zero (ps : List (ℚ × ℚ)) (hd : detPS ps ≠ 0) :
    ssxm ps ≠ 0 := by
  have hn := ne_of_gt (sN_pos_of_det ps hd)
  intro h0
  exact hd (by rw [← ssxm_scaled ps hn, h0, zero_mul])

/-- scipy's slope ssxym / ssxm equals the polyfit closed-form slope. -/
theorem lrSlope_eq_ols (ps : List (ℚ × ℚ)) (hd : detPS ps ≠ 0) :
    lrSlope ps = olsSlope ps := by
  have hn := ne_of_gt (sN_pos_of_det ps hd)
  have hn2 : sN ps ^ 2 ≠ 0 := pow_ne_zero 2 hn
  rw [lrSlope, olsSlope, div_eq_div_iff (ssxm_ne_zero ps hd) hd]
  apply mul_left_cancel₀ hn2
  calc sN ps ^ 2 * (ssxym ps * detPS ps)
      = (ssxym ps * sN ps ^ 2) * detPS ps := by ring
    _ = (sN ps * sXY ps - sX ps * sY ps) * detPS ps := by
        rw [ssxym_scaled ps hn]
    _ = (sN ps * sXY ps - sX ps * sY ps) * (ssxm ps * sN ps ^ 2) := by
        rw [ssxm_scaled ps hn]
    _ = sN ps ^ 2 * ((sN ps * sXY ps - sX ps * sY ps) * ssxm ps) := by ring

/-- scipy's intercept ymean - slope * xmean equals the closed-form one. -/
theorem lrIntercept_eq_ols (ps : List (ℚ × ℚ)) (hd : detPS ps ≠ 0) :
    lrIntercept ps = olsIntercept ps := by
  have hn := ne_of_gt (sN_pos_of_det ps hd)
  rw [lrIntercept, olsIntercept, lrSlope_eq_ols ps hd]
  field_simp
  try ring

/-- scipy's squared slope standard error (1 - r^2) * ssym / ssxm / (n - 2)
coincides with the textbook RSS / ((n - 2) * centered Sxx). -/
theorem lrStdErrSq_eq (ps : List (ℚ × ℚ)) (hd : detPS ps ≠ 0) :
    lrStdErrSq ps = slopeStdErrSq ps := by
  have hnpos := sN_pos_of_det ps hd
  have hn : sN ps ≠ 0 := ne_of_gt hnpos
  have hdp := detPS_pos ps hd
  have hxm := ssxm_ne_zero ps hd
  have hden : sXX ps - sX ps ^ 2 / sN ps = detPS ps / sN ps := by
    have hdd : detPS ps = sN ps * sXX ps - sX ps ^ 2 := rfl
    rw [hdd]
    field_simp
    try ring
  have hexm : ssxm ps = detPS ps / sN ps ^ 2 := by
    rw [← ssxm_scaled ps hn]
    field_simp
  have heym : ssym ps = (sN ps * sYY ps - sY ps ^ 2) / sN ps ^ 2 := by
    rw [← ssym_scaled ps hn]
    field_simp
  have hexym : ssxym ps = (sN ps * sXY ps - sX ps * sY ps) / sN ps ^ 2 := by
    rw [← ssxym_scaled ps hn]
    field_simp
  rcases eq_or_ne (sN ps - 2) 0 with h2 | h2
  · rw [lrStdErrSq, slopeStdErrSq, h2]
    simp
  · rcases eq_or_ne (ssym ps) 0 with hy | hy
    · have hC : sN ps * sYY ps - sY ps ^ 2 = 0 := by
        have h := ssym_scaled ps hn
        rw [hy, zero_mul] at h
        linarith
      have hrssnn := rss_nonneg ps (olsSlope ps) (olsIntercept ps)
      have hclosed := rss_ols_closed ps hd
      rw [hC, mul_zero, zero_sub] at hclosed
      have hB : sN ps * sXY ps - sX ps * sY ps = 0 := by
        nlinarith [hclosed, hrssnn, mul_pos hnpos hdp,
          sq_nonneg (sN ps * sXY ps - sX ps * sY ps)]
      have hr0 : rss ps (olsSlope ps) (olsIntercept ps) = 0 := by
        rw [hB] at hclosed
        have hnd : 0 < sN ps * detPS ps := mul_pos hnpos hdp
        nlinarith [hclosed, hrssnn]
      rw [lrStdErrSq, slopeStdErrSq, hr0, hy]
      simp
    · have hCne : sN ps * sYY ps - sY ps ^ 2 ≠ 0 := by
        intro h0
        apply hy
        rw [← ssym_scaled ps hn] at h0
        exact (mul_eq_zero.mp h0).resolve_right (pow_ne_zero 2 hn)
      have hguard : ¬ (ssxm ps = 0 ∨ ssym ps = 0) := by
        push_neg
        exact ⟨hxm, hy⟩
      have hclosed := rss_ols_closed ps hd
      have hrss0 : rss ps (olsSlope ps) (olsIntercept ps) =
          (detPS ps * (sN ps * sYY ps - sY ps ^ 2) -
            (sN ps * sXY ps - sX ps * sY ps) ^ 2) / (sN ps * detPS ps) := by
        rw [eq_div_iff (by positivity)]
        exact hclosed
      rw [lrStdErrSq, slopeStdErrSq, lrR2, if_neg hguard, hden, hrss0,
        hexm, heym, hexym]
      field_simp
      ring

/-- The slope entry of the np.polyfit covariance (RSS/(n-2) * n/det) is the
textbook squared standard error of the slope. -/
theorem covSlopeR_eq (ps : List (ℝ × ℝ)) (hd : detPS ps ≠ 0) :
    covSlopeR ps = slopeStdErrSq ps := by
  have hnpos := sN_pos_of_det ps hd
  have hn : sN ps ≠ 0 := ne_of_gt hnpos
  have hden : sXX ps - sX ps ^ 2 / sN ps = detPS ps / sN ps := by
    have hdd : detPS ps = sN ps * sXX ps - sX ps ^ 2 := rfl
    rw [hdd]
    field_simp
    try ring
  rw [covSlopeR, slopeStdErrSq, hden]
  rcases eq_or_ne (sN ps - 2) 0 with h2 | h2
  · rw [h2]
    simp
  · field_simp
    try ring

/-- The abscissa sum of the Arrhenius points is the cast rational sum. -/
theorem sX_cast (l : List ArrRow) :
    sX (l.map fun r => (((1 / r.T.getD 0 : ℚ) : ℝ),
      Real.log ((r.D.getD 0 : ℚ) : ℝ))) =
    (((l.map fun r => 1 / r.T.getD 0).sum : ℚ) : ℝ) := by
  induction l with
  | nil => simp [sX]
  | cons r t ih =>
    simp only [sX, List.map_cons, List.map_map, List.sum_cons] at ih ⊢
    rw [ih]
    push_cast
    ring

/-- The squared-abscissa sum of the Arrhenius points is the cast sum. -/
theorem sXX_cast (l : List ArrRow) :
    sXX (l.map fun r => (((1 / r.T.getD 0 : ℚ) : ℝ),
      Real.log ((r.D.getD 0 : ℚ) : ℝ))) =
    ((((l.map fun r => 1 / r.T.getD 0).map fun x => x ^ 2).sum : ℚ) : ℝ) := by
  induction l with
  | nil => simp [sXX]
  | cons r t ih =>
    simp only [sXX, List.map_cons, List.map_map, List.sum_cons] at ih ⊢
    rw [ih]
    push_cast
    ring

/-- The design determinant of the Arrhenius points is the cast of the
rational determinant of the 1/T list. -/
theorem detPS_arrPoints (rows : List ArrRow) (uw : Bool) :
    detPS (arrPoints rows uw) = ((invTDet rows uw : ℚ) : ℝ) := by
  have hX : sX (arrPoints rows uw) = (((invTList rows uw).sum : ℚ) : ℝ) :=
    sX_cast (dfValidRows rows uw)
  have hXX : sXX (arrPoints rows uw) =
      ((((invTList rows uw).map fun x => x ^ 2).sum : ℚ) : ℝ) :=
    sXX_cast (dfValidRows rows uw)
  have hN : sN (arrPoints rows uw) = ((invTList rows uw).length : ℝ) := by
    simp [sN, arrPoints, invTList]
  have hdd : detPS (arrPoints rows uw) =
      sN (arrPoints rows uw) * sXX (arrPoints rows uw) -
        sX (arrPoints rows uw) ^ 2 := rfl
  rw [hdd, hX, hXX, hN]
  simp only [invTDet]
  push_cast
  ring

/-- The Arrhenius points depend on the retained rows only through their
(T, D) cells. -/
theorem arrPoints_proj (rows : List ArrRow) (uw : Bool) :
    arrPoints rows uw =
      ((dfValidRows rows uw).map fun r => (r.T, r.D)).map fun p =>
        (((1 / p.1.getD 0 : ℚ) : ℝ), Real.log ((p.2.getD 0 : ℚ) : ℝ)) := by
  conv_rhs => rw [List.map_map]
  rfl

/-- Square roots of cast rational quotients by a square constant. -/
theorem sqrt_cast_div_const (x d : ℚ) (hd : 0 ≤ d) :
    Real.sqrt ((x / d ^ 2 : ℚ) : ℝ) = Real.sqrt ((x : ℚ) : ℝ) / (d : ℝ) := by
  have h1 : ((x / d ^ 2 : ℚ) : ℝ) = ((x : ℚ) : ℝ) / ((d : ℚ) : ℝ) ^ 2 := by
    push_cast
    ring
  rw [h1, Real.sqrt_div' _ (by positivity),
    Real.sqrt_sq (by exact_mod_cast hd)]

/-- C4: on every table with at least 3 usable rows and a nondegenerate
design, the fitter returns the ordinary-least-squares parameters of the
linearized model on (1/T, log D): Q = -slope * R, D0 = exp(intercept),
Q_eV = Q / 96485, the uncertainties are the square roots of the diagonal of
the covariance of the linear fit propagated as Q_err = slope_err * R and
D0_err = D0 * intercept_err, the covariance slope entry is the textbook
squared slope standard error, and the fitted line minimizes the residual
sum of squares. -/
theorem C4_arrhenius_linear_fit (rows : List ArrRow) (uw : Bool)
    (hlen : 3 ≤ (dfValidRows rows uw).length)
    (hdet : invTDet rows uw ≠ 0) :
    ∃ res, fit_arrhenius rows uw = .ok res ∧
      res.Q = -olsSlope (arrPoints rows uw) * (R : ℝ) ∧
      res.D0 = Real.exp (olsIntercept (arrPoints rows uw)) ∧
      res.Q_eV = res.Q / 96485 ∧
      Real.sqrt res.pcov11 =
        Real.sqrt (covSlopeR (arrPoints rows uw)) * (R : ℝ) ∧
      Real.sqrt res.pcov00 =
        res.D0 * Real.sqrt (covInterceptR (arrPoints rows uw)) ∧
      covSlopeR (arrPoints rows uw) = slopeStdErrSq (arrPoints rows uw) ∧
      ∀ s i, rss (arrPoints rows uw) (olsSlope (arrPoints rows uw))
          (olsIntercept (arrPoints rows uw)) ≤ rss (arrPoints rows uw) s i := by
  have hd : detPS (arrPoints rows uw) ≠ 0 := by
    rw [detPS_arrPoints]
    exact_mod_cast hdet
  simp only [fit_arrhenius]
  rw [if_neg (by omega)]
  have hR : (0 : ℝ) ≤ ((R : ℚ) : ℝ) := by
    have : (0 : ℚ) ≤ R := by norm_num [R]
    exact_mod_cast this
  refine ⟨_, rfl, rfl, rfl, rfl, ?_, ?_, covSlopeR_eq _ hd, ols_min _ hd⟩
  · exact Real.sqrt_sq (mul_nonneg (Real.sqrt_nonneg _) hR)
  · exact Real.sqrt_sq (mul_nonneg (le_of_lt (Real.exp_pos _))
      (Real.sqrt_nonneg _))

/-- Witness for C4 at the concrete three-row table. -/
theorem C4_arrhenius_witness :
    ∃ res, fit_arrhenius exArrRows true = .ok res ∧
      res.Q = -olsSlope (arrPoints exArrRows true) * (R : ℝ) ∧
      res.Q_eV = res.Q / 96485 := by
  obtain ⟨res, h1, h2, -, h4, -⟩ :=
    C4_arrhenius_linear_fit exArrRows true
      (by norm_num [dfValidRows, exArrRows])
      (by norm_num [invTDet, invTList, dfValidRows, exArrRows])
  exact ⟨res, h1, h2, h4⟩

/-- C10: two tables with the same retained (T, D) cells give identical
numeric fit outputs whatever the stored quality values are: the weight
column only filters missing entries and never reweights the regression. -/
theorem C10_weight_only_filters (rows1 rows2 : List ArrRow) (uw : Bool)
    (h : (dfValidRows rows1 uw).map (fun r => (r.T, r.D)) =
      (dfValidRows rows2 uw).map fun r => (r.T, r.D)) :
    fitArrCore rows1 uw = fitArrCore rows2 uw := by
  have hps : arrPoints rows1 uw = arrPoints rows2 uw := by
    rw [arrPoints_proj, arrPoints_proj, h]
  have hlen : (dfValidRows rows1 uw).length =
      (dfValidRows rows2 uw).length := by
    have h2 := congrArg List.length h
    simpa using h2
  simp only [fitArrCore, fit_arrhenius]
  rw [hps, hlen]
  by_cases hc : (dfValidRows rows2 uw).length < 3
  · rw [if_pos hc, if_pos hc]
  · rw [if_neg hc, if_neg hc]
    rfl

/-- Witness for C10: the same three (T, D) rows under two different
quality columns give the same numeric output tuple. -/
theorem C10_weight_witness : fitArrCore exArrRows true =
    fitArrCore exArrRows2 true :=
  C10_weight_only_filters _ _ _ (by simp [dfValidRows, exArrRows, exArrRows2])

/-- C2: whenever an accepted series yields a result, the reported
diffusivity is the ordinary-least-squares slope of the SI-converted MSD
against time divided by 2d, and the reported uncertainty is the regression
slope standard error divided by 2d, with d = 3 for the total-MSD estimator
of analyze_msd.py and d = 1 for the single-axis interface estimator; in
both cases the fitted line minimizes the residual sum of squares. -/
theorem C2_einstein_diffusivity :
    (∀ (tbl : MsdTable) (sp : Species) (ts sf : ℚ) (msd : List ℚ)
      (res : FitRes), msdColumn tbl sp = some msd →
      compute_diffusivity tbl sp ts sf = some res →
      detPS (estPoints tbl.step msd ts sf) ≠ 0 →
      res.D = olsSlope (estPoints tbl.step msd ts sf) / (2 * 3) ∧
      res.err = Real.sqrt
          ((slopeStdErrSq (estPoints tbl.step msd ts sf) : ℚ) : ℝ) /
        (2 * 3) ∧
      ∀ s i, rss (estPoints tbl.step msd ts sf)
          (olsSlope (estPoints tbl.step msd ts sf))
          (olsIntercept (estPoints tbl.step msd ts sf)) ≤
        rss (estPoints tbl.step msd ts sf) s i) ∧
    (∀ (step msdCol : List ℚ) (res : IfaceRes),
      analyze_interface_species step msdCol = some res →
      detPS (ifacePoints step msdCol) ≠ 0 →
      res.D = olsSlope (ifacePoints step msdCol) / (2 * 1) ∧
      res.err = Real.sqrt
          ((slopeStdErrSq (ifacePoints step msdCol) : ℚ) : ℝ) / (2 * 1) ∧
      ∀ s i, rss (ifacePoints step msdCol)
          (olsSlope (ifacePoints step msdCol))
          (olsIntercept (ifacePoints step msdCol)) ≤
        rss (ifacePoints step msdCol) s i) := by
  constructor
  · intro tbl sp ts sf msd res hcol hres hd
    simp only [compute_diffusivity, hcol] at hres
    split at hres
    · exact absurd hres (by simp)
    · obtain rfl := Option.some.inj hres
      refine ⟨?_, ?_, ols_min _ hd⟩
      · show lrSlope (estPoints tbl.step msd ts sf) / 6 = _
        rw [lrSlope_eq_ols _ hd]
        norm_num
      · show FitRes.err _ = _
        simp only [FitRes.err]
        rw [show (36 : ℚ) = 6 ^ 2 by norm_num,
          sqrt_cast_div_const _ 6 (by norm_num), lrStdErrSq_eq _ hd]
        norm_num
  · intro step msdCol res hres hd
    simp only [analyze_interface_species] at hres
    split at hres
    · exact absurd hres (by simp)
    · obtain rfl := Option.some.inj hres
      refine ⟨?_, ?_, ols_min _ hd⟩
      · show lrSlope (ifacePoints step msdCol) / 2 = _
        rw [lrSlope_eq_ols _ hd]
        norm_num
      · show IfaceRes.err _ = _
        simp only [IfaceRes.err]
        rw [show (4 : ℚ) = 2 ^ 2 by norm_num,
          sqrt_cast_div_const _ 2 (by norm_num), lrStdErrSq_eq _ hd]
        norm_num

/-- Witness for C2: the perfectly linear example series through both
estimators. -/
theorem C2_einstein_witness :
    (⟨1 / 600000000, 1, 0⟩ : FitRes).D =
      olsSlope (estPoints exSteps exSteps 1 0) / (2 * 3) ∧
    (⟨1 / 200000, 1e-5, 0, 1, 0, 10⟩ : IfaceRes).D =
      olsSlope (ifacePoints exSteps exSteps) / (2 * 1) := by
  have h := C2_einstein_diffusivity
  have h1 := h.1 exMsd .Mg 1 0 exSteps ⟨1 / 600000000, 1, 0⟩ rfl
    (by norm_num [compute_diffusivity, msdColumn, exMsd, exSteps, estPoints,
      lrSlope, lrR2, lrStdErrSq, ssxm, ssym, ssxym, sX, sY, sXX, sXY, sYY,
      sN, List.zip, show Int.toNat 2 = 2 from rfl])
    (by norm_num [estPoints, exMsd, exSteps, detPS, sN, sX, sXX, List.zip,
      show Int.toNat 2 = 2 from rfl])
  have h2 := h.2 exSteps exSteps ⟨1 / 200000, 1e-5, 0, 1, 0, 10⟩
    (by norm_num [analyze_interface_species, ifacePoints, exSteps, lrSlope,
      lrIntercept, lrR2, lrStdErrSq, ssxm, ssym, ssxym, sX, sY, sXX, sXY,
      sYY, sN, List.zip, show Int.toNat 2 = 2 from rfl])
    (by norm_num [ifacePoints, exSteps, detPS, sN, sX, sXX, List.zip,
      show Int.toNat 2 = 2 from rfl])
  exact ⟨h1.1, h2.1⟩

end PLC
